import Mathlib

/-!
Verification of the recurring-alarm scheduler of the student-planner
repository (primary variant: `raining2.py`).  The development embeds the
scheduler's data model and the body of `alarm_checker` (together with the
pure helper `compute_next_date`) as executable Lean definitions and proves
the spec's claims about them.

Python strings are modelled as Lean `String`; the SQLite `tasks` table is a
list of `Task` records; the background loop is a fold of a per-tick
transition over a schedule of tick inputs.
-/

namespace StudentPlanner

/-! ## Calendar dates

`datetime.date` restricted to what the program uses: construction from a
`YYYY-MM-DD` string (`strptime`), adding `timedelta(days=1)` or
`timedelta(weeks=1)`, and formatting back with `strftime("%Y-%m-%d")`.
`datetime` uses the proleptic Gregorian calendar with years 1..9999. -/

structure Date where
  year : Nat
  month : Nat
  day : Nat
deriving DecidableEq, Repr

def isLeapYear (y : Nat) : Bool :=
  (y % 4 == 0 && y % 100 != 0) || y % 400 == 0

/-- Days in a Gregorian month (the `_DAYS_IN_MONTH` table of `datetime`). -/
def daysInMonth (y m : Nat) : Nat :=
  if m = 2 then (if isLeapYear y then 29 else 28)
  else if m = 4 ∨ m = 6 ∨ m = 9 ∨ m = 11 then 30
  else 31

def isValidDate (d : Date) : Bool :=
  1 ≤ d.year && 1 ≤ d.month && d.month ≤ 12 && 1 ≤ d.day &&
    d.day ≤ daysInMonth d.year d.month

/-- Successor day in the Gregorian calendar: the unchecked arithmetic core
of `timedelta` addition (the range check of `date.__add__` is modelled by
`addTimedelta`). -/
def nextDay (d : Date) : Date :=
  if d.day < daysInMonth d.year d.month then ⟨d.year, d.month, d.day + 1⟩
  else if d.month < 12 then ⟨d.year, d.month + 1, 1⟩
  else ⟨d.year + 1, 1, 1⟩

/-- Iterated day successor: the unchecked arithmetic behind
`date + timedelta(days=n)`; `addTimedelta` adds the range check that makes
the Python addition raise. -/
def addDays : Nat → Date → Date
  | 0, d => d
  | n + 1, d => addDays n (nextDay d)

/-- Model of Python `date + timedelta(days=n)` including its range check:
`date.__add__` raises `OverflowError` when the result would pass
`datetime.date.max` = 9999-12-31 (`datetime.MAXYEAR` is 9999). -/
def addTimedelta (n : Nat) (d : Date) : Except String Date :=
  if (addDays n d).year ≤ 9999 then .ok (addDays n d) else .error "OverflowError"

/-- Cumulative days in months `1..m-1` of year `y` (0 for `m ≤ 1`). -/
def daysBeforeMonth (y : Nat) : Nat → Nat
  | 0 => 0
  | m + 1 => daysBeforeMonth y m + (if m = 0 then 0 else daysInMonth y m)

/-- Number of leap years strictly before year `y` (among years `1..y-1`). -/
def leapsBefore (y : Nat) : Nat :=
  (y - 1) / 4 - (y - 1) / 100 + (y - 1) / 400

/-- Rata-die style day number (the role of `date.toordinal` in `datetime`):
day 1 is January 1 of year 1. -/
def toOrdinal (d : Date) : Nat :=
  365 * (d.year - 1) + leapsBefore d.year + daysBeforeMonth d.year d.month + d.day

/-! ## Date strings

`strftime("%Y-%m-%d")` produces a zero-padded `YYYY-MM-DD` string (years in
`datetime` are at most 9999).  `strptime(s, "%Y-%m-%d")` accepts up to four
year digits and one or two month/day digits, separated by dashes, validates
the calendar values, and raises `ValueError` otherwise. -/

def digitChar (n : Nat) : Char := Char.ofNat (48 + n)

def isDigit (c : Char) : Bool := 48 ≤ c.toNat && c.toNat ≤ 57

def digitVal (c : Char) : Nat := c.toNat - 48

/-- Value of a digit string, as Python `int()` on the matched group. -/
def digitsVal (l : List Char) : Nat :=
  l.foldl (fun a c => a * 10 + digitVal c) 0

/-- Greedily take at most `n` leading digit characters. -/
def takeDigits : Nat → List Char → List Char × List Char
  | 0, l => ([], l)
  | _ + 1, [] => ([], [])
  | n + 1, c :: rest =>
    if isDigit c then
      let p := takeDigits n rest
      (c :: p.1, p.2)
    else ([], c :: rest)

/-- Model of `datetime.datetime.strptime(s, "%Y-%m-%d").date()` on the raw
character list: `none` models a raised `ValueError`. -/
def parseDateL (l : List Char) : Option Date :=
  match takeDigits 4 l with
  | (y0 :: ys, '-' :: r2) =>
    match takeDigits 2 r2 with
    | (m0 :: ms, '-' :: r4) =>
      match takeDigits 2 r4 with
      | (d0 :: ds, []) =>
        if 1 ≤ digitsVal (y0 :: ys) ∧ 1 ≤ digitsVal (m0 :: ms) ∧
            digitsVal (m0 :: ms) ≤ 12 ∧ 1 ≤ digitsVal (d0 :: ds) ∧
            digitsVal (d0 :: ds) ≤
              daysInMonth (digitsVal (y0 :: ys)) (digitsVal (m0 :: ms))
        then some ⟨digitsVal (y0 :: ys), digitsVal (m0 :: ms), digitsVal (d0 :: ds)⟩
        else none
      | _ => none
    | _ => none
  | _ => none

def parseDate (s : String) : Option Date := parseDateL s.data

def pad2 (n : Nat) : List Char := [digitChar (n / 10), digitChar (n % 10)]

/-- Year field of `%Y`: four zero-padded digits.  `datetime` years never
exceed 9999 (larger numbers, unreachable through `addTimedelta`, print in
full rather than being truncated). -/
def pad4 (n : Nat) : List Char :=
  if n ≤ 9999 then
    [digitChar (n / 1000 % 10), digitChar (n / 100 % 10),
     digitChar (n / 10 % 10), digitChar (n % 10)]
  else (Nat.repr n).data

/-- Model of `d.strftime("%Y-%m-%d")`. -/
def formatDate (d : Date) : String :=
  ⟨pad4 d.year ++ '-' :: (pad2 d.month ++ '-' :: pad2 d.day)⟩

/-! ## Task store and scheduler state

A row of the SQLite `tasks` table (`ensure_schema` in `raining2.py`):
`id INTEGER PRIMARY KEY, title TEXT, date TEXT, time TEXT, description TEXT,
completed INTEGER DEFAULT 0, recurrence TEXT DEFAULT 'none'`. -/

structure Task where
  id : Nat
  title : String
  date : String
  time : String
  description : String
  completed : Nat
  recurrence : String
deriving DecidableEq, Repr

/-- An alarm event: the popup/sound emitted for a firing task
(`messagebox.showinfo("Reminder", title, description)` scheduled via
`root.after`).  The task id and minute key are recorded for bookkeeping;
the Python popup shows only title and description. -/
structure FireEvent where
  taskId : Nat
  minuteKey : String
  title : String
  description : String
deriving DecidableEq, Repr

/-- State threaded through the background `alarm_checker` loop: the shared
`tasks` table (`db`), the id SQLite will assign to the next inserted row,
the in-memory `handled_this_minute` set, and observer logs of emitted alarm
events and of messages printed by the `except` clause. -/
structure SchedState where
  db : List Task
  nextId : Nat
  handled : List (Nat × String)
  events : List FireEvent
  errLog : List String
deriving DecidableEq, Repr

/-- Python `str.lower()` (the recurrence values are ASCII): lower-case each
character.  Executable counterpart of `String.toLower`, whose `mapAux` is
defined by well-founded recursion and does not reduce in the kernel. -/
def strLower (s : String) : String := ⟨s.data.map Char.toLower⟩

/-- Model of `compute_next_date` of `raining2.py`: parse `date_str` with
`strptime(date_str, "%Y-%m-%d")` (a `ValueError`, modelled as `.error`,
propagates to the caller), then add one day for `"daily"` or seven days
(`timedelta(weeks=1)`) for `"weekly"` — an addition that raises
`OverflowError` past `datetime.date.max`, also propagating — and return
`None` otherwise. -/
def compute_next_date (date_str recurrence : String) : Except String (Option String) :=
  match parseDate date_str with
  | none => .error "ValueError"
  | some d =>
    if recurrence == "daily" then
      match addTimedelta 1 d with
      | .error e => .error e
      | .ok nd => .ok (some (formatDate nd))
    else if recurrence == "weekly" then
      match addTimedelta 7 d with
      | .error e => .error e
      | .ok nd => .ok (some (formatDate nd))
    else .ok none

/-- The SQL match `WHERE date || ' ' || time = ?` against the current
minute key `now.strftime("%Y-%m-%d %H:%M")`. -/
def matchesKey (key : String) (t : Task) : Bool :=
  t.date ++ " " ++ t.time == key

/-- The duplicate-successor check:
`SELECT COUNT(*) FROM tasks WHERE title=? AND date=? AND time=? AND recurrence=?`. -/
def duplicateCount (db : List Task) (title nd tm rec : String) : Nat :=
  (db.filter (fun t =>
    t.title == title && t.date == nd && t.time == tm && t.recurrence == rec)).length

/-- Body of the `for m in matches:` loop of `alarm_checker` for a single
matched row `m`: skip if `(id, current_key)` is already in
`handled_this_minute`; otherwise record it, emit the alarm event, and if
`recurrence` is truthy and lower-cases to `daily`/`weekly`, compute the next
date and insert the successor row (with `completed = 0`) unless the
duplicate-count is non-zero.  A `ValueError` from `compute_next_date` is
returned as `some e`; state changes made before the raise persist. -/
def processTask (key : String) (s : SchedState) (m : Task) :
    SchedState × Option String :=
  if (m.id, key) ∈ s.handled then (s, none)
  else
    let s1 : SchedState :=
      { s with handled := s.handled ++ [(m.id, key)],
               events := s.events ++ [⟨m.id, key, m.title, m.description⟩] }
    if m.recurrence != "" &&
        (strLower m.recurrence == "daily" || strLower m.recurrence == "weekly") then
      match compute_next_date m.date (strLower m.recurrence) with
      | .error e => (s1, some e)
      | .ok none => (s1, none)
      | .ok (some nd) =>
        if duplicateCount s1.db m.title nd m.time m.recurrence == 0 then
          ({ s1 with
              db := s1.db ++
                [⟨s1.nextId, m.title, nd, m.time, m.description, 0, m.recurrence⟩],
              nextId := s1.nextId + 1 }, none)
        else (s1, none)
    else (s1, none)

/-- The `for m in matches:` loop: process rows left to right; an exception
aborts the remaining rows (it propagates to the `except` clause wrapping the
whole tick body). -/
def processList (key : String) (s : SchedState) : List Task → SchedState × Option String
  | [] => (s, none)
  | m :: rest =>
    match processTask key s m with
    | (s2, none) => processList key s2 rest
    | (s2, some e) => (s2, some e)

/-- One iteration of the `while not stop_event.is_set():` loop of
`alarm_checker` in which the `SELECT` succeeds: fetch the rows matching the
current minute key, process them (an exception is caught by the `except`
clause, which prints it), and finally execute `handled_this_minute.clear()`
— the clear runs at the end of every iteration, after the sleep. -/
def tick (key : String) (s : SchedState) : SchedState :=
  match processList key s (s.db.filter (matchesKey key)) with
  | (s2, none) => { s2 with handled := [] }
  | (s2, some e) => { s2 with errLog := s2.errLog ++ [e], handled := [] }

/-- An iteration in which reading the task store fails (`cur.execute` of the
`SELECT` raises): the `except` clause prints the error, no row is processed,
and the loop moves on to its next iteration (after the clear). -/
def tickReadError (e : String) (s : SchedState) : SchedState :=
  { s with errLog := s.errLog ++ [e], handled := [] }

/-- Input consumed by one loop iteration: the current minute key when the
store read succeeds, or the error message when it fails. -/
inductive TickIn where
  | ok (key : String)
  | readErr (e : String)
deriving DecidableEq, Repr

def tickStep : TickIn → SchedState → SchedState
  | .ok key, s => tick key s
  | .readErr e, s => tickReadError e s

/-- The background loop run over a finite schedule of tick inputs. -/
def runSched : List TickIn → SchedState → SchedState
  | [], s => s
  | i :: rest, s => runSched rest (tickStep i s)

/-- The background loop with the `stop_event` observation made explicit:
each scheduled iteration carries the value of `stop_event.is_set()` observed
at the `while` condition; a `true` observation ends the loop immediately. -/
def runSchedStop : List (Bool × TickIn) → SchedState → SchedState
  | [], s => s
  | (stop, i) :: rest, s => if stop then s else runSchedStop rest (tickStep i s)

/-! ## Branch equations for `processTask` -/

/-- The alarm event `processTask` emits for `m` at minute `key`. -/
def mkEvent (key : String) (m : Task) : FireEvent :=
  ⟨m.id, key, m.title, m.description⟩

/-- Truthiness-and-lowercasing guard of line 148 of `raining2.py`:
`if recurrence and recurrence.lower() in ("daily", "weekly")`. -/
def recurGuard (m : Task) : Bool :=
  m.recurrence != "" &&
    (strLower m.recurrence == "daily" || strLower m.recurrence == "weekly")

/-- The spec §8 scenario task: Math HW, due 2024-01-01 09:00, daily. -/
def mathHW : Task := ⟨1, "Math HW", "2024-01-01", "09:00", "Algebra sheet", 0, "daily"⟩

def exKey : String := "2024-01-01 09:00"

def exState : SchedState := ⟨[mathHW], 2, [], [], []⟩

/-- A task whose recurrence is the mixed-case string `Daily`. -/
def mixedTask : Task := ⟨1, "Mixed", "2024-01-01", "09:00", "", 0, "Daily"⟩

def mixedState : SchedState := ⟨[mixedTask], 2, [], [], []⟩

/-- A task with an unrecognized recurrence value. -/
def monthlyTask : Task := ⟨1, "M", "2024-01-01", "09:00", "", 0, "monthly"⟩

def monthlyState : SchedState := ⟨[monthlyTask], 2, [], [], []⟩

/-- A matched record with a malformed date, followed by a healthy record
matched in the same tick. -/
def malformedTask : Task := ⟨1, "Broken", "bad", "09:00", "", 0, "daily"⟩

def afterTask : Task := ⟨2, "After", "bad", "09:00", "", 0, "none"⟩

def malformedKey : String := "bad 09:00"

def malformedState : SchedState := ⟨[malformedTask, afterTask], 3, [], [], []⟩

lemma daysInMonth_ge (y m : Nat) : 28 ≤ daysInMonth y m := by
  unfold daysInMonth
  split
  · split <;> omega
  · split <;> omega

lemma isLeapYear_iff (y : Nat) :
    isLeapYear y = true ↔ ((y % 4 = 0 ∧ y % 100 ≠ 0) ∨ y % 400 = 0) := by
  simp [isLeapYear, Bool.or_eq_true, Bool.and_eq_true]

lemma leapsBefore_succ (y : Nat) (hy : 1 ≤ y) :
    leapsBefore (y + 1) = leapsBefore y + (if isLeapYear y then 1 else 0) := by
  unfold leapsBefore
  by_cases h : isLeapYear y = true
  · rw [if_pos h]
    rw [isLeapYear_iff] at h
    omega
  · rw [if_neg h]
    have h' : ¬ ((y % 4 = 0 ∧ y % 100 ≠ 0) ∨ y % 400 = 0) := by
      rw [← isLeapYear_iff]
      exact h
    omega

lemma daysBeforeMonth_12_add (y : Nat) :
    daysBeforeMonth y 12 + 31 = 365 + (if isLeapYear y then 1 else 0) := by
  by_cases h : isLeapYear y = true <;>
    simp [daysBeforeMonth, daysInMonth, h]

lemma isValidDate_iff (d : Date) :
    isValidDate d = true ↔
      (1 ≤ d.year ∧ 1 ≤ d.month ∧ d.month ≤ 12 ∧ 1 ≤ d.day ∧
        d.day ≤ daysInMonth d.year d.month) := by
  simp [isValidDate, Bool.and_eq_true, and_assoc]

lemma daysBeforeMonth_succ (y m : Nat) (hm : 1 ≤ m) :
    daysBeforeMonth y (m + 1) = daysBeforeMonth y m + daysInMonth y m := by
  have : ¬ (m = 0) := by omega
  simp [daysBeforeMonth, this]

/-- Correctness of the day-successor function: it advances the rata-die day
number by exactly one and preserves calendar validity. -/
lemma nextDay_ordinal_valid (d : Date) (h : isValidDate d = true) :
    toOrdinal (nextDay d) = toOrdinal d + 1 ∧ isValidDate (nextDay d) = true := by
  rw [isValidDate_iff] at h
  obtain ⟨hy, hm1, hm12, hd1, hdm⟩ := h
  unfold nextDay
  by_cases h1 : d.day < daysInMonth d.year d.month
  · rw [if_pos h1]
    refine ⟨?_, ?_⟩
    · dsimp only [toOrdinal]
      omega
    · rw [isValidDate_iff]
      dsimp only
      exact ⟨hy, hm1, hm12, by omega, by omega⟩
  · rw [if_neg h1]
    have hde : d.day = daysInMonth d.year d.month := by omega
    by_cases h2 : d.month < 12
    · rw [if_pos h2]
      have hsucc := daysBeforeMonth_succ d.year d.month hm1
      have hge := daysInMonth_ge d.year (d.month + 1)
      refine ⟨?_, ?_⟩
      · dsimp only [toOrdinal]
        omega
      · rw [isValidDate_iff]
        dsimp only
        exact ⟨hy, by omega, by omega, by omega, by omega⟩
    · rw [if_neg h2]
      have hm : d.month = 12 := by omega
      have h31 : daysInMonth d.year 12 = 31 := by simp [daysInMonth]
      have hdb := daysBeforeMonth_12_add d.year
      have hlb := leapsBefore_succ d.year hy
      have hge := daysInMonth_ge (d.year + 1) 1
      have hday : d.day = 31 := by rw [hde, hm, h31]
      have hdb0 : daysBeforeMonth (d.year + 1) 1 = 0 := by
        simp [daysBeforeMonth]
      refine ⟨?_, ?_⟩
      · dsimp only [toOrdinal]
        rw [hm, hday, hdb0]
        by_cases hl : isLeapYear d.year = true
        · rw [if_pos hl] at hdb hlb
          omega
        · rw [if_neg hl] at hdb hlb
          omega
      · rw [isValidDate_iff]
        dsimp only
        exact ⟨by omega, by omega, by omega, by omega, by omega⟩

lemma nextDay_valid (d : Date) (h : isValidDate d = true) :
    isValidDate (nextDay d) = true :=
  (nextDay_ordinal_valid d h).2

lemma nextDay_year_le (d : Date) : (nextDay d).year ≤ d.year + 1 := by
  unfold nextDay
  split
  · dsimp only
    omega
  · split <;> dsimp only <;> omega

/-- Adding `n` days advances the ordinal by exactly `n` and preserves validity. -/
lemma addDays_ordinal_valid (n : Nat) (d : Date) (h : isValidDate d = true) :
    toOrdinal (addDays n d) = toOrdinal d + n ∧ isValidDate (addDays n d) = true := by
  induction n generalizing d with
  | zero => exact ⟨rfl, h⟩
  | succ k ih =>
    obtain ⟨ho, hv⟩ := nextDay_ordinal_valid d h
    obtain ⟨iho, ihv⟩ := ih (nextDay d) hv
    refine ⟨?_, ihv⟩
    simp only [addDays]
    omega

lemma addDays_year_le (n : Nat) (d : Date) : (addDays n d).year ≤ d.year + n := by
  induction n generalizing d with
  | zero => simp [addDays]
  | succ k ih =>
    simp only [addDays]
    have h1 := nextDay_year_le d
    have h2 := ih (nextDay d)
    omega

/-- Adding a positive number of days always changes the date. -/
lemma addDays_ne (n : Nat) (hn : 1 ≤ n) (d : Date) (h : isValidDate d = true) :
    addDays n d ≠ d := by
  intro heq
  have := (addDays_ordinal_valid n d h).1
  rw [heq] at this
  omega

lemma digitChar_inj : ∀ a < 10, ∀ b < 10, digitChar a = digitChar b → a = b := by
  decide

lemma daysInMonth_le (y m : Nat) : daysInMonth y m ≤ 31 := by
  unfold daysInMonth
  split
  · split <;> omega
  · split <;> omega

/-- A successfully parsed date is calendar-valid. -/
lemma parseDate_valid (s : String) (d : Date) (h : parseDate s = some d) :
    isValidDate d = true := by
  unfold parseDate parseDateL at h
  repeat split at h
  all_goals cases h
  rename_i hcond
  rw [isValidDate_iff]
  dsimp only
  exact hcond

lemma pad4_of_le (n : Nat) (h : n ≤ 9999) :
    pad4 n = [digitChar (n / 1000 % 10), digitChar (n / 100 % 10),
      digitChar (n / 10 % 10), digitChar (n % 10)] := by
  unfold pad4
  rw [if_pos h]

/-- Formatting with `strftime` is injective on valid dates. -/
lemma formatDate_inj (d1 d2 : Date)
    (h1 : isValidDate d1 = true) (h2 : isValidDate d2 = true)
    (hy1 : d1.year ≤ 9999) (hy2 : d2.year ≤ 9999)
    (heq : formatDate d1 = formatDate d2) : d1 = d2 := by
  rw [isValidDate_iff] at h1 h2
  unfold formatDate pad2 at heq
  rw [pad4_of_le d1.year hy1, pad4_of_le d2.year hy2] at heq
  rw [String.ext_iff] at heq
  simp only [List.cons_append, List.nil_append, List.cons.injEq, List.append_nil] at heq
  obtain ⟨e1, e2, e3, e4, -, e5, e6, -, e7, e8, -⟩ := heq
  have hy : d1.year = d2.year := by
    have q1 := digitChar_inj _ (by omega) _ (by omega) e1
    have q2 := digitChar_inj _ (by omega) _ (by omega) e2
    have q3 := digitChar_inj _ (by omega) _ (by omega) e3
    have q4 := digitChar_inj _ (by omega) _ (by omega) e4
    omega
  have hmo : d1.month = d2.month := by
    have b1 : d1.month / 10 < 10 := by omega
    have b2 : d2.month / 10 < 10 := by omega
    have q1 := digitChar_inj _ b1 _ b2 e5
    have q2 := digitChar_inj _ (by omega) _ (by omega) e6
    omega
  have hda : d1.day = d2.day := by
    have hd1 : d1.day ≤ 31 := by
      have := daysInMonth_le d1.year d1.month
      omega
    have hd2 : d2.day ≤ 31 := by
      have := daysInMonth_le d2.year d2.month
      omega
    have q1 := digitChar_inj _ (by omega) _ (by omega) e7
    have q2 := digitChar_inj _ (by omega) _ (by omega) e8
    omega
  cases d1
  cases d2
  simp_all

lemma processTask_handled (key : String) (s : SchedState) (m : Task)
    (h : (m.id, key) ∈ s.handled) : processTask key s m = (s, none) := by
  unfold processTask
  rw [if_pos h]

lemma processTask_skip (key : String) (s : SchedState) (m : Task)
    (h : (m.id, key) ∉ s.handled) (hg : recurGuard m = false) :
    processTask key s m =
      ({ s with handled := s.handled ++ [(m.id, key)],
                events := s.events ++ [mkEvent key m] }, none) := by
  unfold processTask
  rw [if_neg h]
  unfold recurGuard at hg
  rw [hg]
  rfl

lemma processTask_err (key : String) (s : SchedState) (m : Task) (e : String)
    (h : (m.id, key) ∉ s.handled) (hg : recurGuard m = true)
    (hc : compute_next_date m.date (strLower m.recurrence) = .error e) :
    processTask key s m =
      ({ s with handled := s.handled ++ [(m.id, key)],
                events := s.events ++ [mkEvent key m] }, some e) := by
  unfold processTask
  rw [if_neg h]
  unfold recurGuard at hg
  rw [hg, hc]
  rfl

lemma processTask_dup (key : String) (s : SchedState) (m : Task) (nd : String)
    (h : (m.id, key) ∉ s.handled) (hg : recurGuard m = true)
    (hc : compute_next_date m.date (strLower m.recurrence) = .ok (some nd))
    (hdup : duplicateCount s.db m.title nd m.time m.recurrence ≠ 0) :
    processTask key s m =
      ({ s with handled := s.handled ++ [(m.id, key)],
                events := s.events ++ [mkEvent key m] }, none) := by
  unfold processTask
  rw [if_neg h]
  unfold recurGuard at hg
  rw [hg, hc]
  dsimp only
  have h' : ¬ ((duplicateCount s.db m.title nd m.time m.recurrence == 0) = true) := by
    simp [hdup]
  rw [if_neg h']
  rfl

lemma processTask_insert (key : String) (s : SchedState) (m : Task) (nd : String)
    (h : (m.id, key) ∉ s.handled) (hg : recurGuard m = true)
    (hc : compute_next_date m.date (strLower m.recurrence) = .ok (some nd))
    (hdup : duplicateCount s.db m.title nd m.time m.recurrence = 0) :
    processTask key s m =
      ({ s with handled := s.handled ++ [(m.id, key)],
                events := s.events ++ [mkEvent key m],
                db := s.db ++ [⟨s.nextId, m.title, nd, m.time, m.description, 0,
                               m.recurrence⟩],
                nextId := s.nextId + 1 }, none) := by
  unfold processTask
  rw [if_neg h]
  unfold recurGuard at hg
  rw [hg, hc]
  dsimp only
  have h' : (duplicateCount s.db m.title nd m.time m.recurrence == 0) = true := by
    simp [hdup]
  rw [if_pos h']
  rfl

/-! ## Composition lemmas for the tick -/

lemma processList_nil (key : String) (s : SchedState) :
    processList key s [] = (s, none) := rfl

lemma processList_cons_ok (key : String) (s s2 : SchedState) (m : Task)
    (rest : List Task) (h : processTask key s m = (s2, none)) :
    processList key s (m :: rest) = processList key s2 rest := by
  simp only [processList]
  rw [h]

lemma processList_cons_err (key : String) (s s2 : SchedState) (m : Task)
    (e : String) (rest : List Task) (h : processTask key s m = (s2, some e)) :
    processList key s (m :: rest) = (s2, some e) := by
  simp only [processList]
  rw [h]

lemma tick_of_ok (key : String) (s s2 : SchedState)
    (h : processList key s (s.db.filter (matchesKey key)) = (s2, none)) :
    tick key s = { s2 with handled := [] } := by
  simp only [tick]
  rw [h]

lemma tick_of_err (key : String) (s s2 : SchedState) (e : String)
    (h : processList key s (s.db.filter (matchesKey key)) = (s2, some e)) :
    tick key s = { s2 with errLog := s2.errLog ++ [e], handled := [] } := by
  simp only [tick]
  rw [h]

/-! ## Guard and recurrence-engine equations -/

lemma recurGuard_daily (m : Task) (h : m.recurrence = "daily") :
    recurGuard m = true := by
  unfold recurGuard
  rw [h]
  decide

lemma recurGuard_weekly (m : Task) (h : m.recurrence = "weekly") :
    recurGuard m = true := by
  unfold recurGuard
  rw [h]
  decide

lemma recurGuard_false (m : Task)
    (h1 : strLower m.recurrence ≠ "daily") (h2 : strLower m.recurrence ≠ "weekly") :
    recurGuard m = false := by
  unfold recurGuard
  simp [h1, h2]

lemma compute_next_date_daily (ds : String) (D : Date)
    (hp : parseDate ds = some D) (hb : (addDays 1 D).year ≤ 9999) :
    compute_next_date ds "daily" = .ok (some (formatDate (nextDay D))) := by
  unfold compute_next_date addTimedelta
  rw [hp]
  dsimp only
  rw [if_pos hb]
  rfl

lemma compute_next_date_daily_overflow (ds : String) (D : Date)
    (hp : parseDate ds = some D) (hb : ¬ (addDays 1 D).year ≤ 9999) :
    compute_next_date ds "daily" = .error "OverflowError" := by
  unfold compute_next_date addTimedelta
  rw [hp]
  dsimp only
  rw [if_neg hb]
  rfl

lemma compute_next_date_weekly (ds : String) (D : Date)
    (hp : parseDate ds = some D) (hb : (addDays 7 D).year ≤ 9999) :
    compute_next_date ds "weekly" = .ok (some (formatDate (addDays 7 D))) := by
  unfold compute_next_date addTimedelta
  rw [hp]
  dsimp only
  rw [if_pos hb]
  rfl

lemma compute_next_date_weekly_overflow (ds : String) (D : Date)
    (hp : parseDate ds = some D) (hb : ¬ (addDays 7 D).year ≤ 9999) :
    compute_next_date ds "weekly" = .error "OverflowError" := by
  unfold compute_next_date addTimedelta
  rw [hp]
  dsimp only
  rw [if_neg hb]
  rfl

lemma compute_next_date_badparse (ds r : String) (hp : parseDate ds = none) :
    compute_next_date ds r = .error "ValueError" := by
  unfold compute_next_date
  rw [hp]

/-! ## Duplicate-count lemmas -/

lemma duplicateCount_append (db1 db2 : List Task) (t nd tm rc : String) :
    duplicateCount (db1 ++ db2) t nd tm rc =
      duplicateCount db1 t nd tm rc + duplicateCount db2 t nd tm rc := by
  simp [duplicateCount, List.filter_append]

lemma duplicateCount_self (i : Nat) (t nd tm de : String) (c : Nat) (rc : String) :
    duplicateCount [⟨i, t, nd, tm, de, c, rc⟩] t nd tm rc = 1 := by
  simp [duplicateCount]

/-! ## The successor row never matches the firing minute -/

lemma matchesKey_date_eq (key : String) (t1 t2 : Task)
    (h1 : matchesKey key t1 = true) (h2 : matchesKey key t2 = true)
    (ht : t2.time = t1.time) : t2.date = t1.date := by
  unfold matchesKey at h1 h2
  rw [beq_iff_eq] at h1 h2
  rw [← h1, ht] at h2
  rw [String.ext_iff] at h2 ⊢
  simp only [String.data_append] at h2
  exact List.append_cancel_right (List.append_cancel_right h2)

/-- A freshly inserted successor row (due `n ≥ 1` days later) can never match
the minute key its parent fired at. -/
lemma successor_no_match (key : String) (m r : Task) (D : Date) (n : Nat)
    (hn : 1 ≤ n) (hv : isValidDate D = true) (hy : D.year + n ≤ 9999)
    (hdm : m.date = formatDate D) (hm : matchesKey key m = true)
    (hrd : r.date = formatDate (addDays n D)) (hrt : r.time = m.time) :
    matchesKey key r = false := by
  by_contra hc
  rw [Bool.not_eq_false] at hc
  have hdd : r.date = m.date := matchesKey_date_eq key m r hm hc hrt
  rw [hrd, hdm] at hdd
  obtain ⟨ho, hvn⟩ := addDays_ordinal_valid n D hv
  have hy2 : (addDays n D).year ≤ 9999 := le_trans (addDays_year_le n D) hy
  have heq := formatDate_inj (addDays n D) D hvn hv hy2 (by omega) hdd
  exact addDays_ne n hn D hv heq

lemma recurGuard_true_cases (m : Task) (hg : recurGuard m = true) :
    strLower m.recurrence = "daily" ∨ strLower m.recurrence = "weekly" := by
  unfold recurGuard at hg
  rw [Bool.and_eq_true, Bool.or_eq_true] at hg
  rcases hg.2 with h | h
  · exact Or.inl (by rwa [beq_iff_eq] at h)
  · exact Or.inr (by rwa [beq_iff_eq] at h)

lemma compute_next_date_not_oknone (ds r : String)
    (hr : r = "daily" ∨ r = "weekly") : compute_next_date ds r ≠ .ok none := by
  cases hp : parseDate ds with
  | none =>
    rw [compute_next_date_badparse ds r hp]
    simp
  | some D =>
    rcases hr with h | h <;> subst h
    · by_cases hb : (addDays 1 D).year ≤ 9999
      · rw [compute_next_date_daily ds D hp hb]
        simp
      · rw [compute_next_date_daily_overflow ds D hp hb]
        simp
    · by_cases hb : (addDays 7 D).year ≤ 9999
      · rw [compute_next_date_weekly ds D hp hb]
        simp
      · rw [compute_next_date_weekly_overflow ds D hp hb]
        simp

/-- Any branch of `processTask` on a not-yet-handled task emits exactly one
alarm event, records the pair in the handled set, keeps the error log, and
appends at most one row to the table. -/
lemma processTask_fires_shape (key : String) (s : SchedState) (m : Task)
    (h : (m.id, key) ∉ s.handled) :
    ∃ s2 o, processTask key s m = (s2, o) ∧
      s2.events = s.events ++ [mkEvent key m] ∧
      s2.handled = s.handled ++ [(m.id, key)] ∧
      s2.errLog = s.errLog ∧
      (s2.db = s.db ∨ ∃ r, s2.db = s.db ++ [r]) := by
  by_cases hg : recurGuard m = true
  · cases hc : compute_next_date m.date (strLower m.recurrence) with
    | error e =>
      rw [processTask_err key s m e h hg hc]
      exact ⟨_, _, rfl, rfl, rfl, rfl, Or.inl rfl⟩
    | ok o =>
      cases o with
      | none =>
        exact absurd hc (compute_next_date_not_oknone _ _ (recurGuard_true_cases m hg))
      | some nd =>
        by_cases hdup : duplicateCount s.db m.title nd m.time m.recurrence = 0
        · rw [processTask_insert key s m nd h hg hc hdup]
          exact ⟨_, _, rfl, rfl, rfl, rfl, Or.inr ⟨_, rfl⟩⟩
        · rw [processTask_dup key s m nd h hg hc hdup]
          exact ⟨_, _, rfl, rfl, rfl, rfl, Or.inl rfl⟩
  · have hg' : recurGuard m = false := by
      revert hg
      cases recurGuard m <;> simp
    rw [processTask_skip key s m h hg']
    exact ⟨_, _, rfl, rfl, rfl, rfl, Or.inl rfl⟩

/-- Whatever the initial state, processing a list of matched rows appends to
the event log only events carrying the current minute key, at most one per
distinct row id (in list order). -/
lemma processList_events_shape (key : String) :
    ∀ (ms : List Task) (s : SchedState),
      ∃ new, (processList key s ms).1.events = s.events ++ new ∧
        (new.map (fun e => e.taskId)).Sublist (ms.map (fun t => t.id)) ∧
        (∀ e ∈ new, e.minuteKey = key) := by
  intro ms
  induction ms with
  | nil =>
    intro s
    exact ⟨[], by simp [processList_nil], by simp, by simp⟩
  | cons m rest ih =>
    intro s
    by_cases h : (m.id, key) ∈ s.handled
    · rw [processList_cons_ok key s s m rest (processTask_handled key s m h)]
      obtain ⟨new, h1, h2, h3⟩ := ih s
      exact ⟨new, h1, h2.trans (List.sublist_cons_self _ _), h3⟩
    · obtain ⟨s2, o, heq, hev, hh, herr, hdb⟩ := processTask_fires_shape key s m h
      cases o with
      | some e =>
        rw [processList_cons_err key s s2 m e rest heq]
        refine ⟨[mkEvent key m], by rw [hev], ?_, ?_⟩
        · exact (List.nil_sublist _).cons₂ m.id
        · intro e' he'
          rw [List.mem_singleton] at he'
          rw [he']
          rfl
      | none =>
        rw [processList_cons_ok key s s2 m rest heq]
        obtain ⟨new, h1, h2, h3⟩ := ih s2
        refine ⟨mkEvent key m :: new, ?_, ?_, ?_⟩
        · rw [h1, hev, List.append_assoc]
          rfl
        · exact h2.cons₂ m.id
        · intro e' he'
          rcases List.mem_cons.mp he' with h' | h'
          · rw [h']
            rfl
          · exact h3 e' h'

/-- A tick matching a single recurring row whose successor tuple is already
present inserts nothing. -/
lemma tick_single_dup (key : String) (s : SchedState) (m : Task) (nd : String)
    (hh : s.handled = [])
    (hf : s.db.filter (matchesKey key) = [m])
    (hg : recurGuard m = true)
    (hc : compute_next_date m.date (strLower m.recurrence) = .ok (some nd))
    (hdup : duplicateCount s.db m.title nd m.time m.recurrence ≠ 0) :
    (tick key s).db = s.db ∧ (tick key s).handled = [] := by
  have hm : (m.id, key) ∉ s.handled := by
    rw [hh]
    exact List.not_mem_nil _
  have hi := processTask_dup key s m nd hm hg hc hdup
  have hpl := processList_cons_ok key s _ m [] hi
  rw [processList_nil] at hpl
  have ht := tick_of_ok key s _ (by rw [hf]; exact hpl)
  rw [ht]
  exact ⟨rfl, rfl⟩

/-- A tick matching a single recurring row with no duplicate successor
appends exactly the successor row. -/
lemma tick_single_insert (key : String) (s : SchedState) (m : Task) (nd : String)
    (hh : s.handled = [])
    (hf : s.db.filter (matchesKey key) = [m])
    (hg : recurGuard m = true)
    (hc : compute_next_date m.date (strLower m.recurrence) = .ok (some nd))
    (hdup : duplicateCount s.db m.title nd m.time m.recurrence = 0) :
    (tick key s).db = s.db ++
      [⟨s.nextId, m.title, nd, m.time, m.description, 0, m.recurrence⟩] ∧
    (tick key s).handled = [] := by
  have hm : (m.id, key) ∉ s.handled := by
    rw [hh]
    exact List.not_mem_nil _
  have hi := processTask_insert key s m nd hm hg hc hdup
  have hpl := processList_cons_ok key s _ m [] hi
  rw [processList_nil] at hpl
  have ht := tick_of_ok key s _ (by rw [hf]; exact hpl)
  rw [ht]
  exact ⟨rfl, rfl⟩

/-! ## Claim theorems -/

/-- C6 counterexample: the recurrence string `Daily` is none of the exact
strings `none`, `daily`, `weekly`, yet firing the task inserts a successor —
`alarm_checker` lower-cases the stored value before comparing, so the claim
that any value other than the exact three strings behaves like `none` is
false. -/
theorem c6_counterexample_mixed_case :
    ("Daily" ≠ "none" ∧ "Daily" ≠ "daily" ∧ "Daily" ≠ "weekly") ∧
    (tick exKey mixedState).db =
      [mixedTask, ⟨2, "Mixed", "2024-01-02", "09:00", "", 0, "Daily"⟩] := by
  decide

/-- C6 amended: every task whose recurrence, after Python `lower()`, is
neither `daily` nor `weekly` — including `none`, the empty string and
unknown values such as `monthly` — is treated exactly like `none`: firing
emits the alarm event, inserts no successor and raises no error.  Values
that merely differ in case from `daily`/`weekly` (e.g. `Daily`) are
advanced instead. -/
theorem c6_unknown_recurrence_like_none (key : String) (s : SchedState) (m : Task)
    (hm : (m.id, key) ∉ s.handled)
    (h1 : strLower m.recurrence ≠ "daily") (h2 : strLower m.recurrence ≠ "weekly") :
    processTask key s m =
      ({ s with handled := s.handled ++ [(m.id, key)],
                events := s.events ++ [mkEvent key m] }, none) :=
  processTask_skip key s m hm (recurGuard_false m h1 h2)

theorem c6_unknown_recurrence_like_none_witness :
    processTask exKey monthlyState monthlyTask =
      (⟨[monthlyTask], 2, [(1, exKey)], [⟨1, exKey, "M", ""⟩], []⟩, none) := by
  have h := c6_unknown_recurrence_like_none exKey monthlyState monthlyTask
    (by decide) (by decide) (by decide)
  rw [h]
  decide

/-- C7: a failure reading the task store during a tick is logged (the
`except` clause prints it), the tick is abandoned with the table and emitted
events untouched, and the loop simply continues with the remaining schedule
— a failed tick never terminates the scheduling loop. -/
theorem c7_failed_tick_nonfatal (e : String) (s : SchedState)
    (sched rest : List TickIn) :
    (tickReadError e s).db = s.db ∧
    (tickReadError e s).events = s.events ∧
    (tickReadError e s).errLog = s.errLog ++ [e] ∧
    runSched (TickIn.readErr e :: rest) s = runSched rest (tickReadError e s) ∧
    runSched (sched ++ rest) s = runSched rest (runSched sched s) := by
  refine ⟨rfl, rfl, rfl, rfl, ?_⟩
  induction sched generalizing s with
  | nil => rfl
  | cons i tl ih =>
    simp only [runSched, List.cons_append]
    exact ih _

/-- C8 counterexample: in a tick matching two records where the first has a
malformed due date (and a recurring rule), the `ValueError` raised inside the
loop propagates to the per-tick `except` clause: the whole tick is abandoned
and the second matched record is never processed — its alarm never fires —
contradicting the claim that only the offending record is skipped. -/
theorem c8_counterexample_abort_not_skip :
    matchesKey malformedKey afterTask = true ∧
    (tick malformedKey malformedState).events =
      [⟨1, malformedKey, "Broken", ""⟩] ∧
    (tick malformedKey malformedState).errLog = ["ValueError"] ∧
    (tick malformedKey malformedState).db = malformedState.db := by
  decide

/-- C8 amended: an exception raised while processing one matched record
(e.g. a malformed due date reaching `strptime`) abandons the whole tick at
that record: the error is logged, the records before it in the tick's match
list keep their effects, and the records after it are not processed at all
— whatever they are. -/
theorem c8_malformed_record_aborts_tick (key : String) (s : SchedState)
    (m : Task) (e : String) (rest : List Task)
    (h : (processTask key s m).2 = some e) :
    processList key s (m :: rest) = ((processTask key s m).1, some e) := by
  have h2 : processTask key s m = ((processTask key s m).1, some e) := by
    rw [← h]
  exact processList_cons_err key s _ m e rest h2

theorem c8_malformed_record_aborts_tick_witness :
    processList malformedKey malformedState [malformedTask, afterTask] =
      ((processTask malformedKey malformedState malformedTask).1, some "ValueError") :=
  c8_malformed_record_aborts_tick malformedKey malformedState malformedTask
    "ValueError" [afterTask] (by decide)

/-- C9: once the background loop observes the stop signal at its `while`
condition, the rest of the schedule is irrelevant — the final state is
exactly the state accumulated before the observation, so the loop performs
no further task-store writes (nor any other effect) after the signal is
observed.  The creator requests the stop and waits for acknowledgment in
`PlannerApp.on_quit`, which sets `stop_event` and joins the alarm thread. -/
theorem c9_no_writes_after_stop (pre : List (Bool × TickIn)) (i : TickIn)
    (post : List (Bool × TickIn)) (s : SchedState)
    (hpre : ∀ p ∈ pre, p.1 = false) :
    runSchedStop (pre ++ (true, i) :: post) s = runSched (pre.map Prod.snd) s := by
  induction pre generalizing s with
  | nil => rfl
  | cons p tl ih =>
    obtain ⟨b, j⟩ := p
    have hb : b = false := hpre (b, j) (List.mem_cons_self _ _)
    subst hb
    show (if false = true then s else
        runSchedStop (tl ++ (true, i) :: post) (tickStep j s)) = _
    rw [if_neg (by simp)]
    exact ih (tickStep j s) (fun p hp => hpre p (List.mem_cons_of_mem _ hp))

theorem c9_no_writes_after_stop_witness :
    runSchedStop
        [(false, TickIn.ok exKey), (true, TickIn.readErr "stop"),
         (false, TickIn.ok exKey)] exState =
      runSched [TickIn.ok exKey] exState :=
  c9_no_writes_after_stop [(false, TickIn.ok exKey)] (TickIn.readErr "stop")
    [(false, TickIn.ok exKey)] exState (by decide)

/-- C4 counterexample: `handled_this_minute` is cleared at the end of every
loop iteration (after the sleep), so if the tick body runs twice with the
same minute key the dedup set is empty again and the alarm event for the
same task and the same minute fires a second time; only the
duplicate-successor check keeps the recurrence advancement from repeating.
This refutes the claim that a task fires at most once per minute no matter
how many times the check runs within that minute. -/
theorem c4_counterexample_double_fire :
    ((runSched [TickIn.ok exKey, TickIn.ok exKey] exState).events.filter
        (fun e => e.taskId == 1 && e.minuteKey == exKey)).length = 2 ∧
    (runSched [TickIn.ok exKey, TickIn.ok exKey] exState).db =
      (runSched [TickIn.ok exKey] exState).db := by
  decide

/-- C4 amended: within a single run of the tick body each task fires at most
once (the rows of one fetch are distinct and the handled set dedups them),
and every event emitted by the tick carries that tick's minute key; but if
the body runs again in the same minute the event fires again, because the
handled set is cleared at the end of every iteration — only the
duplicate-successor check keeps the advancement at one insert per minute.
In the program as timed, iterations are at least 70 seconds apart, so two
runs never share a minute key. -/
theorem c4_at_most_once_per_tick (key : String) (s : SchedState)
    (hnd : (s.db.map (fun t => t.id)).Nodup) :
    ∃ new, (tick key s).events = s.events ++ new ∧
      (new.map (fun e => e.taskId)).Nodup ∧
      (∀ e ∈ new, e.minuteKey = key) := by
  obtain ⟨new, h1, h2, h3⟩ :=
    processList_events_shape key (s.db.filter (matchesKey key)) s
  have hnd2 : ((s.db.filter (matchesKey key)).map (fun t => t.id)).Nodup :=
    List.Nodup.sublist ((List.filter_sublist s.db).map _) hnd
  refine ⟨new, ?_, List.Nodup.sublist h2 hnd2, h3⟩
  cases hr : processList key s (s.db.filter (matchesKey key)) with
  | mk s2 o =>
    rw [hr] at h1
    cases o with
    | none =>
      rw [tick_of_ok key s s2 hr]
      exact h1
    | some e =>
      rw [tick_of_err key s s2 e hr]
      exact h1

theorem c4_at_most_once_per_tick_witness :
    ∃ new, (tick exKey exState).events = exState.events ++ new ∧
      (new.map (fun e => e.taskId)).Nodup ∧
      (∀ e ∈ new, e.minuteKey = exKey) :=
  c4_at_most_once_per_tick exKey exState (by decide)

/-- C2: recurrence advancement is idempotent: the tick inserts the next
occurrence only when no row already carries the identical
(title, nextDueDate, dueTime, recurrence) tuple, so running the same tick
logic twice in a row for an already-advanced recurring task (stored with a
canonically formatted date) creates no second duplicate successor — the
second tick leaves the table exactly as the first left it. -/
theorem c2_advancement_idempotent (key : String) (s : SchedState) (m : Task)
    (D : Date)
    (hh : s.handled = [])
    (hf : s.db.filter (matchesKey key) = [m])
    (hr : m.recurrence = "daily" ∨ m.recurrence = "weekly")
    (hd : m.date = formatDate D)
    (hp : parseDate m.date = some D)
    (hy : D.year + 7 ≤ 9999) :
    (tick key (tick key s)).db = (tick key s).db := by
  have hv := parseDate_valid m.date D hp
  obtain ⟨n, hn1, hn7, hg, hc⟩ : ∃ n, 1 ≤ n ∧ n ≤ 7 ∧ recurGuard m = true ∧
      compute_next_date m.date (strLower m.recurrence) =
        .ok (some (formatDate (addDays n D))) := by
    rcases hr with hr | hr
    · refine ⟨1, le_refl 1, by omega, recurGuard_daily m hr, ?_⟩
      have hsl : strLower m.recurrence = "daily" := by
        rw [hr]
        rfl
      have hb1 : (addDays 1 D).year ≤ 9999 :=
        le_trans (addDays_year_le 1 D) (by omega)
      rw [hsl]
      exact compute_next_date_daily m.date D hp hb1
    · refine ⟨7, by omega, le_refl 7, recurGuard_weekly m hr, ?_⟩
      have hsl : strLower m.recurrence = "weekly" := by
        rw [hr]
        rfl
      have hb7 : (addDays 7 D).year ≤ 9999 :=
        le_trans (addDays_year_le 7 D) (by omega)
      rw [hsl]
      exact compute_next_date_weekly m.date D hp hb7
  have hmem : m ∈ s.db.filter (matchesKey key) := by
    rw [hf]
    exact List.mem_singleton_self m
  have hmk : matchesKey key m = true := List.of_mem_filter hmem
  have hnomatch : matchesKey key
      (⟨s.nextId, m.title, formatDate (addDays n D), m.time, m.description, 0,
        m.recurrence⟩ : Task) = false :=
    successor_no_match key m _ D n hn1 hv (by omega) hd hmk rfl rfl
  by_cases hdup : duplicateCount s.db m.title (formatDate (addDays n D))
      m.time m.recurrence = 0
  · obtain ⟨hdb1, hh1⟩ :=
      tick_single_insert key s m (formatDate (addDays n D)) hh hf hg hc hdup
    have hrf : List.filter (matchesKey key)
        [(⟨s.nextId, m.title, formatDate (addDays n D), m.time, m.description, 0,
          m.recurrence⟩ : Task)] = [] := by
      simp [hnomatch]
    have hf2 : (tick key s).db.filter (matchesKey key) = [m] := by
      rw [hdb1, List.filter_append, hf, hrf, List.append_nil]
    have hdup2 : duplicateCount (tick key s).db m.title
        (formatDate (addDays n D)) m.time m.recurrence ≠ 0 := by
      rw [hdb1, duplicateCount_append, duplicateCount_self]
      omega
    exact (tick_single_dup key (tick key s) m (formatDate (addDays n D))
      hh1 hf2 hg hc hdup2).1
  · obtain ⟨hdb1, hh1⟩ :=
      tick_single_dup key s m (formatDate (addDays n D)) hh hf hg hc hdup
    have hf2 : (tick key s).db.filter (matchesKey key) = [m] := by
      rw [hdb1]
      exact hf
    have hdup2 : duplicateCount (tick key s).db m.title
        (formatDate (addDays n D)) m.time m.recurrence ≠ 0 := by
      rw [hdb1]
      exact hdup
    exact (tick_single_dup key (tick key s) m (formatDate (addDays n D))
      hh1 hf2 hg hc hdup2).1

theorem c2_advancement_idempotent_witness :
    (runSched [TickIn.ok exKey, TickIn.ok exKey] exState).db =
      (runSched [TickIn.ok exKey] exState).db := by
  have h := c2_advancement_idempotent exKey exState mathHW ⟨2024, 1, 1⟩ rfl
    (by decide) (Or.inl rfl) (by decide) (by decide) (by decide)
  exact h

end StudentPlanner

